import Mathlib

/-!
Shallow embedding of the termdash core (pkg/termdash/statusdetector.go and the
transcript recorder) for checking the specification's claims.

Modelling conventions:
* Go `time.Time` instants become `Nat` milliseconds measured from Go's zero
  time (`time.Time{}`); `time.Since(t)` at instant `now` becomes `now - t`
  (truncated `Nat` subtraction, matching that a monotone clock never yields a
  negative elapsed duration).
* The terminal byte stream is a `List Nat` of byte values; the status
  detector's regexes use only ASCII character classes (plus the literal
  UTF-8 bytes of the chevron rune), so they are translated byte for byte.
* Timer callbacks (`time.AfterFunc` bodies) are modelled as explicit events:
  the detector's idle-timer body is `StatusDetector.idleTimerFired`, invoked
  at the instant the timer fires.
* The asynchronous `go sd.callback(old, new)` dispatch is modelled by the
  `Option (SessionStatus × SessionStatus)` component of each operation's
  result: `some (old, new)` means exactly one notification was dispatched.
  (The embedding assumes a non-nil callback, i.e. a listener is attached.)
-/

/-- The four session status values (`StatusActive` .. `StatusExited`). -/
inductive SessionStatus where
  | active
  | needsInput
  | idle
  | exited
deriving DecidableEq, Repr

/-- Go `IdleTimeout = 10 * time.Second`, in milliseconds. -/
def IdleTimeout : Nat := 10000

/-- Go `DebounceInterval = 500 * time.Millisecond`, in milliseconds. -/
def DebounceInterval : Nat := 500

/-- Go `MaxLineBufferSize = 4096` bytes. -/
def MaxLineBufferSize : Nat := 4096

/-- A status-change notification `(oldStatus, newStatus)`. -/
abbrev Notification := SessionStatus × SessionStatus

/-- The mutable state of a `StatusDetector` (timer handles are modelled as
events, and the callback as the notification output, so neither is a field). -/
structure StatusDetector where
  lineBuffer : List Nat
  currentStatus : SessionStatus
  lastOutputAt : Nat
  lastChangeAt : Nat
  stopped : Bool
deriving DecidableEq, Repr

/-- Go `NewStatusDetector` called at instant `now`: status `active`, last output
now, `lastChangeAt` left at the zero value of `time.Time`, i.e. instant `0`. -/
def NewStatusDetector (now : Nat) : StatusDetector :=
  { lineBuffer := []
    currentStatus := .active
    lastOutputAt := now
    lastChangeAt := 0
    stopped := false }

/-- Byte is an ASCII letter, the class `[a-zA-Z]`. -/
def isAsciiLetterByte (b : Nat) : Bool :=
  (65 ≤ b && b ≤ 90) || (97 ≤ b && b ≤ 122)

/-- Byte is in the class `[0-9;]`. -/
def isDigitSemiByte (b : Nat) : Bool :=
  (48 ≤ b && b ≤ 57) || b == 59

/-- Byte matches Go's regexp `\s`, i.e. the class `[\t\n\f\r ]`. -/
def isSpaceByte (b : Nat) : Bool :=
  b == 9 || b == 10 || b == 12 || b == 13 || b == 32

/-- After `ESC [`, try to consume `[0-9;]*[a-zA-Z]`; `some rest` on a match. -/
def csiTail (bs : List Nat) : Option (List Nat) :=
  match bs.dropWhile isDigitSemiByte with
  | b :: rest => if isAsciiLetterByte b then some rest else none
  | [] => none

/-- After `ESC ]`, try to consume `[^\x07]*\x07`; `some rest` on a match. -/
def oscTail : List Nat → Option (List Nat)
  | [] => none
  | b :: rest => if b == 7 then some rest else oscTail rest

theorem dropWhile_length_le (p : Nat → Bool) (l : List Nat) :
    (l.dropWhile p).length ≤ l.length := by
  induction l with
  | nil => simp
  | cons b rest ih =>
      by_cases hb : p b
      · simp only [List.dropWhile_cons, hb, if_true]
        exact Nat.le_trans ih (by simp)
      · simp [List.dropWhile_cons, hb]

theorem csiTail_length {bs r : List Nat} (h : csiTail bs = some r) :
    r.length < bs.length := by
  unfold csiTail at h
  rcases hd : bs.dropWhile isDigitSemiByte with _ | ⟨b, rest⟩ <;> rw [hd] at h
  · exact absurd h (by simp)
  · have hle : (b :: rest).length ≤ bs.length := by
      rw [← hd]; exact dropWhile_length_le isDigitSemiByte bs
    by_cases hb : isAsciiLetterByte b
    · simp [hb] at h
      subst h
      exact Nat.lt_of_lt_of_le (by simp) hle
    · simp [hb] at h

theorem oscTail_length {bs r : List Nat} (h : oscTail bs = some r) :
    r.length < bs.length := by
  induction bs generalizing r with
  | nil => exact absurd h (by simp [oscTail])
  | cons b rest ih =>
      unfold oscTail at h
      by_cases hb : b == 7
      · simp [hb] at h
        subst h
        simp
      · simp [hb] at h
        exact Nat.lt_trans (ih h) (by simp)

/-- Fuel-indexed left-to-right scan for `stripAnsi`.  Every recursive call
strictly shortens the byte list (`csiTail_length`, `oscTail_length`), so with
`fuel` at least the list length the fuel never runs out and the scan is
exactly `ansiRegex.ReplaceAllString(text, "")`: on failure to match at an
escape byte, the byte is kept and scanning resumes at the next byte. -/
def stripAnsiFuel : Nat → List Nat → List Nat
  | 0, bs => bs
  | _ + 1, [] => []
  | fuel + 1, 27 :: 91 :: rest =>
      match csiTail rest with
      | some r => stripAnsiFuel fuel r
      | none => 27 :: stripAnsiFuel fuel (91 :: rest)
  | fuel + 1, 27 :: 93 :: rest =>
      match oscTail rest with
      | some r => stripAnsiFuel fuel r
      | none => 27 :: stripAnsiFuel fuel (93 :: rest)
  | fuel + 1, b :: rest => b :: stripAnsiFuel fuel rest

/-- Go `stripAnsi`: `ansiRegex.ReplaceAllString(text, "")` where `ansiRegex` is
`\x1b\[[0-9;]*[a-zA-Z]|\x1b\][^\x07]*\x07|\x1b\[[0-9;]*m` (the third branch
is subsumed by the first). -/
def stripAnsi (bs : List Nat) : List Nat :=
  stripAnsiFuel bs.length bs

/-- Go `strings.Split(text, "\n")` on bytes (newline byte 10). -/
def splitNewlines : List Nat → List (List Nat)
  | [] => [[]]
  | 10 :: rest => [] :: splitNewlines rest
  | b :: rest =>
      match splitNewlines rest with
      | l :: ls => (b :: l) :: ls
      | [] => [[b]]

/-- Go `getLastLines`: keep only the last `n` newline-separated lines. -/
def getLastLines (bs : List Nat) (n : Nat) : List Nat :=
  let lines := splitNewlines bs
  if lines.length ≤ n then bs
  else List.intercalate [10] (lines.drop (lines.length - n))

/-- UTF-8 bytes of the chevron rune `U+276F` used by the first prompt pattern. -/
def chevronBytes : List Nat := [226, 157, 175]

/-- Drop trailing `\s` bytes (used for the `X\s*$` shaped patterns). -/
def dropTrailingSpace (bs : List Nat) : List Nat :=
  (bs.reverse.dropWhile isSpaceByte).reverse

/-- Go `MatchString` of a pattern of shape `pat\s*$`: some occurrence of `pat`
is followed only by whitespace up to the end of the text, i.e. the text with
trailing whitespace removed ends in `pat`. -/
def matchesTailPattern (pat bs : List Nat) : Bool :=
  pat.isSuffixOf (dropTrailingSpace bs)

/-- Byte string containment (`MatchString` of a literal pattern). -/
def containsBytes (pat : List Nat) : List Nat → Bool
  | [] => pat.isPrefixOf ([] : List Nat)
  | b :: rest => pat.isPrefixOf (b :: rest) || containsBytes pat rest

/-- After a `?` byte: match `\s*\(?(yes|no|y\/n)\)?` (the trailing `\)?` is
vacuous; `\s*` and `\(?` are deterministic since whitespace and `(` cannot
begin `yes`, `no` or `y/n`). -/
def yesNoAfterQuestion (bs : List Nat) : Bool :=
  let r := bs.dropWhile isSpaceByte
  let r := match r with
    | 40 :: rest => rest
    | _ => r
  ([121, 101, 115].isPrefixOf r) || ([110, 111].isPrefixOf r) ||
    ([121, 47, 110].isPrefixOf r)

/-- Go `MatchString` of `\?\s*\(?(yes|no|y\/n)\)?`. -/
def matchesYesNo : List Nat → Bool
  | [] => false
  | 63 :: rest => yesNoAfterQuestion rest || matchesYesNo rest
  | _ :: rest => matchesYesNo rest

/-- After `(Y)es`: scan for `(N)o` with no newline in between (`.` in Go
regexp does not match `\n`). -/
def noAfterYes : List Nat → Bool
  | [] => false
  | b :: rest =>
      [40, 78, 41, 111].isPrefixOf (b :: rest) || (b != 10 && noAfterYes rest)

/-- Go `MatchString` of `\(Y\)es.*\(N\)o`. -/
def matchesYesDotNo : List Nat → Bool
  | [] => false
  | b :: rest =>
      ([40, 89, 41, 101, 115].isPrefixOf (b :: rest) &&
        noAfterYes ((b :: rest).drop 5)) || matchesYesDotNo rest

/-- ASCII bytes of a string of ASCII characters. -/
def asciiBytes (s : String) : List Nat := s.toList.map (fun c => c.toNat)

/-- Go `matchesPrompt`: true when any of the nine `promptPatterns` matches. -/
def matchesPrompt (bs : List Nat) : Bool :=
  matchesTailPattern chevronBytes bs ||                -- ❯\s*$
  matchesTailPattern [62] bs ||                        -- >\s*$
  matchesTailPattern [36] bs ||                        -- \$\s*$
  matchesYesNo bs ||                                   -- \?\s*\(?(yes|no|y\/n)\)?
  containsBytes (asciiBytes "Do you want to proceed") bs ||
  matchesYesDotNo bs ||                                -- \(Y\)es.*\(N\)o
  containsBytes (asciiBytes "Press Enter to continue") bs ||
  containsBytes (asciiBytes "[Y/n]") bs ||             -- \[Y/n\]
  containsBytes (asciiBytes "waiting for input") bs ||
  containsBytes (asciiBytes "waiting for response") bs

/-- Go `setStatus`: update the status and dispatch the callback if changed.
Discards the candidate when it equals the current status or when less than
`DebounceInterval` has elapsed since the last accepted change. -/
def StatusDetector.setStatus (sd : StatusDetector) (now : Nat)
    (newStatus : SessionStatus) : StatusDetector × Option Notification :=
  if newStatus = sd.currentStatus then (sd, none)
  else if now - sd.lastChangeAt < DebounceInterval then (sd, none)
  else ({ sd with currentStatus := newStatus, lastChangeAt := now },
        some (sd.currentStatus, newStatus))

/-- Go `ProcessOutput` at instant `now` with chunk `data`: records the output
time, appends to the trailing line buffer (keeping the last
`MaxLineBufferSize` bytes), matches the stripped last three lines against the
prompt patterns and passes the candidate status through `setStatus`.  (The
`resetIdleTimer` call re-arms the idle timer, modelled by the
`idleTimerFired` event.) -/
def StatusDetector.ProcessOutput (sd : StatusDetector) (now : Nat)
    (data : List Nat) : StatusDetector × Option Notification :=
  if sd.stopped then (sd, none)
  else
    let buf := sd.lineBuffer ++ data
    let buf := if MaxLineBufferSize < buf.length
               then buf.drop (buf.length - MaxLineBufferSize) else buf
    let sd := { sd with lastOutputAt := now, lineBuffer := buf }
    let stripped := stripAnsi (getLastLines buf 3)
    if matchesPrompt stripped then sd.setStatus now .needsInput
    else sd.setStatus now .active

/-- Go `SetExited`: forces the candidate `exited` through `setStatus`.  Note
that, unlike `ProcessOutput` and the timer callback, it does not check the
`stopped` flag. -/
def StatusDetector.SetExited (sd : StatusDetector) (now : Nat) :
    StatusDetector × Option Notification :=
  sd.setStatus now .exited

/-- Go `Stop`: marks the detector stopped and cancels the idle timer.  Fires no
callback. -/
def StatusDetector.Stop (sd : StatusDetector) : StatusDetector :=
  { sd with stopped := true }

/-- Go `GetStatus`. -/
def StatusDetector.GetStatus (sd : StatusDetector) : SessionStatus :=
  sd.currentStatus

/-- The body of the idle timer armed by `startIdleTimer` / `resetIdleTimer`,
executed at the instant `now` the timer fires: if not stopped, and the status
is still `active` with no output for at least `IdleTimeout`, drive the status
to `idle` through `setStatus`. -/
def StatusDetector.idleTimerFired (sd : StatusDetector) (now : Nat) :
    StatusDetector × Option Notification :=
  if sd.stopped then (sd, none)
  else if sd.currentStatus = .active ∧ IdleTimeout ≤ now - sd.lastOutputAt then
    sd.setStatus now .idle
  else (sd, none)

/-- The events that can act on a detector after creation. -/
inductive DetectorEvent where
  | processOutput (data : List Nat)
  | setExited
  | stop
  | idleFire
deriving DecidableEq, Repr

/-- One event applied to the detector at instant `now`. -/
def detectorStep (sd : StatusDetector) (now : Nat) :
    DetectorEvent → StatusDetector × Option Notification
  | .processOutput data => sd.ProcessOutput now data
  | .setExited => sd.SetExited now
  | .stop => (sd.Stop, none)
  | .idleFire => sd.idleTimerFired now

/-- Run a timestamped event trace. -/
def runDetector (sd : StatusDetector) : List (Nat × DetectorEvent) → StatusDetector
  | [] => sd
  | (t, e) :: rest => runDetector (detectorStep sd t e).1 rest

/-- The trace is chronological starting no earlier than `t`. -/
def Chronological : Nat → List (Nat × DetectorEvent) → Prop
  | _, [] => True
  | t, (t', _) :: rest => t ≤ t' ∧ Chronological t' rest

/-- Clock-consistency of a detector state at instant `t`: its timestamps are
in the past, and while the status is `active` the last accepted change is not
more recent than the last output. -/
def GoodAt (sd : StatusDetector) (t : Nat) : Prop :=
  sd.lastChangeAt ≤ t ∧ sd.lastOutputAt ≤ t ∧
    (sd.currentStatus = .active → sd.lastChangeAt ≤ sd.lastOutputAt)

/-! ### Transcript recorder (src/unnamed/part_001)

The recorder's text pipeline works on Go strings whose regex character
classes are ASCII except for the spinner glyphs, so it is translated at the
rune (= `Char`) level.  The flush callback handoff (`go tr.flushFn(lines)`)
is modelled by the `Option (List TranscriptEntry)` component of each
operation's result: `some batch` means the callback was invoked once with
the JSONL serialization of `batch`.  `json.Marshal` of a `TranscriptEntry`
(an int64 and two valid strings) cannot fail, so the per-entry skip branch
in `flush` is dead and the serialized `lines` are nonempty exactly when the
buffer is; the batch is therefore modelled as the entry list itself. -/

/-- Go `TranscriptFlushThreshold = 1024` bytes. -/
def TranscriptFlushThreshold : Nat := 1024

/-- A transcript entry; `kind` models the Go field `Type` (`"output"` or
`"input"`), which is a reserved word in Lean. -/
structure TranscriptEntry where
  Timestamp : Nat
  kind : String
  Text : String
deriving DecidableEq, Repr

/-- The mutable state of a `TranscriptRecorder` (the periodic flush timer is
modelled as the `flushTimerFired` event, the callback as the batch output). -/
structure TranscriptRecorder where
  buffer : List TranscriptEntry
  bufferBytes : Nat
  stopped : Bool
  lastOutput : String
  dupCount : Nat
deriving DecidableEq, Repr

/-- Go `NewTranscriptRecorder`: zero-valued fields. -/
def NewTranscriptRecorder : TranscriptRecorder :=
  { buffer := [], bufferBytes := 0, stopped := false, lastOutput := "", dupCount := 0 }

/-- Character in the class `[a-zA-Z]`. -/
def isAsciiLetterChar (c : Char) : Bool :=
  (('a' ≤ c) && (c ≤ 'z')) || (('A' ≤ c) && (c ≤ 'Z'))

/-- Character in the class `[0-9;]`. -/
def isDigitSemiChar (c : Char) : Bool :=
  (('0' ≤ c) && (c ≤ '9')) || c == ';'

/-- Character matching Go's regexp `\s`, the class `[\t\n\f\r ]`. -/
def isSpaceRe (c : Char) : Bool :=
  c == '\t' || c == '\n' || c.toNat == 12 || c == '\r' || c == ' '

/-- Character for which Go's `unicode.IsSpace` is true (what
`strings.TrimSpace` trims): the Latin-1 whitespace plus the Unicode
White_Space code points. -/
def isSpaceGo (c : Char) : Bool :=
  let n := c.toNat
  n == 9 || n == 10 || n == 11 || n == 12 || n == 13 || n == 32 ||
  n == 0x85 || n == 0xA0 || n == 0x1680 ||
  (0x2000 ≤ n && n ≤ 0x200A) || n == 0x2028 || n == 0x2029 ||
  n == 0x202F || n == 0x205F || n == 0x3000

/-- After `ESC [`, consume `[0-9;]*[a-zA-Z]` (`some rest` on a match). -/
def csiTailC (cs : List Char) : Option (List Char) :=
  match cs.dropWhile isDigitSemiChar with
  | c :: rest => if isAsciiLetterChar c then some rest else none
  | [] => none

/-- After `ESC [`, consume `\??[0-9;]*[a-zA-Z]`: the union of the first and
fourth branches of `transcriptAnsiRegex`, which are mutually exclusive since
`?` is neither in `[0-9;]` nor in `[a-zA-Z]`. -/
def csiQTail (cs : List Char) : Option (List Char) :=
  if cs.head? = some '?' then csiTailC cs.tail else csiTailC cs

/-- After `ESC ]`, consume `[^\x07]*\x07` (`some rest` on a match). -/
def oscTailC : List Char → Option (List Char)
  | [] => none
  | c :: rest => if c == '\x07' then some rest else oscTailC rest

theorem dropWhileC_length_le (p : Char → Bool) (l : List Char) :
    (l.dropWhile p).length ≤ l.length := by
  induction l with
  | nil => simp
  | cons b rest ih =>
      by_cases hb : p b
      · simp only [List.dropWhile_cons, hb, if_true]
        exact Nat.le_trans ih (by simp)
      · simp [List.dropWhile_cons, hb]

theorem csiTailC_length {cs r : List Char} (h : csiTailC cs = some r) :
    r.length < cs.length := by
  unfold csiTailC at h
  rcases hd : cs.dropWhile isDigitSemiChar with _ | ⟨c, rest⟩ <;> rw [hd] at h
  · exact absurd h (by simp)
  · have hle : (c :: rest).length ≤ cs.length := by
      rw [← hd]; exact dropWhileC_length_le isDigitSemiChar cs
    by_cases hc : isAsciiLetterChar c
    · simp [hc] at h
      subst h
      exact Nat.lt_of_lt_of_le (by simp) hle
    · simp [hc] at h

theorem csiQTail_length {cs r : List Char} (h : csiQTail cs = some r) :
    r.length < cs.length := by
  unfold csiQTail at h
  by_cases hq : cs.head? = some '?'
  · rw [if_pos hq] at h
    have htl : cs.tail.length < cs.length := by
      cases cs with
      | nil => simp at hq
      | cons c rest => simp
    exact Nat.lt_trans (csiTailC_length h) htl
  · rw [if_neg hq] at h
    exact csiTailC_length h

theorem oscTailC_length {cs r : List Char} (h : oscTailC cs = some r) :
    r.length < cs.length := by
  induction cs generalizing r with
  | nil => exact absurd h (by simp [oscTailC])
  | cons c rest ih =>
      unfold oscTailC at h
      by_cases hc : c == '\x07'
      · simp [hc] at h
        subst h
        simp
      · simp [hc] at h
        exact Nat.lt_trans (ih h) (by simp)

/-- The ANSI stripping of `cleanForTranscript`:
`transcriptAnsiRegex.ReplaceAllString(text, "")` where `transcriptAnsiRegex`
is `\x1b\[[0-9;]*[a-zA-Z]|\x1b\][^\x07]*\x07|\x1b\[[0-9;]*m|\x1b\[\?[0-9;]*[a-zA-Z]`
(the `m` branch is subsumed by the first branch). -/
def stripEscapesFuel : Nat → List Char → List Char
  | 0, cs => cs
  | _ + 1, [] => []
  | fuel + 1, '\x1b' :: '[' :: rest =>
      match csiQTail rest with
      | some r => stripEscapesFuel fuel r
      | none => '\x1b' :: stripEscapesFuel fuel ('[' :: rest)
  | fuel + 1, '\x1b' :: ']' :: rest =>
      match oscTailC rest with
      | some r => stripEscapesFuel fuel r
      | none => '\x1b' :: stripEscapesFuel fuel (']' :: rest)
  | fuel + 1, c :: rest => c :: stripEscapesFuel fuel rest

/-- The scan above with fuel equal to the text length; every recursive call
strictly shortens the list (`csiQTail_length`, `oscTailC_length`), so the
fuel never runs out and this is exactly the `ReplaceAllString`. -/
def stripEscapes (cs : List Char) : List Char :=
  stripEscapesFuel cs.length cs

/-- Go `strings.ReplaceAll(cleaned, "\r", "")`: removing every carriage return
(a single-character pattern, so replacement is elementwise filtering). -/
def removeCR (cs : List Char) : List Char :=
  cs.filter (fun c => c != '\r')

/-- One pass of `strings.ReplaceAll(cleaned, "\n\n\n", "\n\n")`: leftmost,
non-overlapping. -/
def replaceTriple : List Char → List Char
  | [] => []
  | [c] => [c]
  | [c, d] => [c, d]
  | c :: d :: e :: rest =>
      if c = '\n' ∧ d = '\n' ∧ e = '\n' then '\n' :: '\n' :: replaceTriple rest
      else c :: replaceTriple (d :: e :: rest)

/-- Go `strings.Contains(cleaned, "\n\n\n")`. -/
def hasTriple : List Char → Bool
  | [] => false
  | [_] => false
  | [_, _] => false
  | c :: d :: e :: rest =>
      (c == '\n' && d == '\n' && e == '\n') || hasTriple (d :: e :: rest)

theorem replaceTriple_length_le (l : List Char) :
    (replaceTriple l).length ≤ l.length := by
  induction l using replaceTriple.induct with
  | case1 => simp [replaceTriple]
  | case2 c => simp [replaceTriple]
  | case3 c d => simp [replaceTriple]
  | case4 c d e rest ht ih =>
      rw [replaceTriple, if_pos ht]
      simp only [List.length_cons]
      omega
  | case5 c d e rest ht ih =>
      rw [replaceTriple, if_neg ht]
      simp only [List.length_cons] at *
      omega

theorem replaceTriple_length_lt {l : List Char} (h : hasTriple l = true) :
    (replaceTriple l).length < l.length := by
  induction l using replaceTriple.induct with
  | case1 => simp [hasTriple] at h
  | case2 c => simp [hasTriple] at h
  | case3 c d => simp [hasTriple] at h
  | case4 c d e rest ht ih =>
      rw [replaceTriple, if_pos ht]
      have := replaceTriple_length_le rest
      simp only [List.length_cons]
      omega
  | case5 c d e rest ht ih =>
      rw [replaceTriple, if_neg ht]
      rw [hasTriple] at h
      simp only [Bool.or_eq_true, Bool.and_eq_true, beq_iff_eq] at h
      rcases h with h1 | h
      · exact absurd (by tauto) ht
      · have := ih h
        simp only [List.length_cons] at *
        omega

/-- Any character emitted by `replaceTriple` is from its input or is a
newline. -/
theorem replaceTriple_mem {a : Char} {l : List Char}
    (h : a ∈ replaceTriple l) : a ∈ l ∨ a = '\n' := by
  induction l using replaceTriple.induct with
  | case1 => simp [replaceTriple] at h
  | case2 c => simp [replaceTriple] at h; simp [h]
  | case3 c d => simp [replaceTriple] at h; rcases h with h | h <;> simp [h]
  | case4 c d e rest ht ih =>
      rw [replaceTriple, if_pos ht] at h
      simp only [List.mem_cons] at h
      rcases h with h | h | h
      · right; exact h
      · right; exact h
      · rcases ih h with hm | hn
        · left; simp [hm]
        · right; exact hn
  | case5 c d e rest ht ih =>
      rw [replaceTriple, if_neg ht] at h
      simp only [List.mem_cons] at h
      rcases h with h | h
      · left; simp [h]
      · rcases ih h with hm | hn
        · left; simp only [List.mem_cons] at hm ⊢; tauto
        · right; exact hn

/-- Fuel-indexed version of the `for strings.Contains(cleaned, "\n\n\n")`
loop of `cleanForTranscript`: each iteration strictly shortens the text
(`replaceTriple_length_lt`), so fuel equal to the text length always
suffices and the loop runs until no triple newline remains. -/
def collapseFuel : Nat → List Char → List Char
  | 0, l => l
  | fuel + 1, l => if hasTriple l then collapseFuel fuel (replaceTriple l) else l

/-- The collapse loop of `cleanForTranscript`. -/
def collapseNewlines (l : List Char) : List Char :=
  collapseFuel l.length l

/-- With sufficient fuel the collapse loop reaches its fixpoint: no triple
newline remains. -/
theorem collapseFuel_hasTriple :
    ∀ (fuel : Nat) (l : List Char), l.length ≤ fuel →
      hasTriple (collapseFuel fuel l) = false := by
  intro fuel
  induction fuel with
  | zero =>
      intro l hl
      have : l = [] := List.length_eq_zero.mp (Nat.le_zero.mp hl)
      subst this
      simp [collapseFuel, hasTriple]
  | succ f ih =>
      intro l hl
      rw [collapseFuel]
      by_cases h : hasTriple l
      · rw [if_pos h]
        exact ih _ (by have := replaceTriple_length_lt h; omega)
      · rw [if_neg h]
        exact Bool.of_not_eq_true h

theorem collapseFuel_mem {a : Char} :
    ∀ (fuel : Nat) (l : List Char), a ∈ collapseFuel fuel l → a ∈ l ∨ a = '\n' := by
  intro fuel
  induction fuel with
  | zero => intro l h; left; simpa [collapseFuel] using h
  | succ f ih =>
      intro l h
      rw [collapseFuel] at h
      by_cases ht : hasTriple l
      · rw [if_pos ht] at h
        rcases ih _ h with hm | hn
        · exact replaceTriple_mem hm
        · right; exact hn
      · rw [if_neg ht] at h
        left; exact h

/-- Go `strings.TrimSpace`: drop `unicode.IsSpace` characters at both ends. -/
def trimSpaceChars (cs : List Char) : List Char :=
  ((cs.dropWhile isSpaceGo).reverse.dropWhile isSpaceGo).reverse

/-- Go `cleanForTranscript`: strip escape sequences, remove carriage returns,
collapse triple newlines, trim surrounding whitespace. -/
def cleanForTranscript (s : String) : String :=
  String.mk (trimSpaceChars (collapseNewlines (removeCR (stripEscapes s.toList))))

/-- Spinner character class of the first `animationPatterns` regex:
`\s`, the braille spinner glyphs, pipe, slash, hyphen and backslash. -/
def isSpinnerChar (c : Char) : Bool :=
  isSpaceRe c ||
  c == '⠋' || c == '⠙' || c == '⠹' || c == '⠸' || c == '⠼' || c == '⠴' ||
  c == '⠦' || c == '⠧' || c == '⠇' || c == '⠏' || c == '⣾' || c == '⣽' ||
  c == '⣻' || c == '⢿' || c == '⡿' || c == '⣟' || c == '⣯' || c == '⣷' ||
  c == '|' || c == '/' || c == '-' || c == '\\'

/-- Go `MatchString` of `^\s*\d+%`: the text starts with whitespace, then at
least one digit, then `%` (the classes are disjoint, so greedy matching is
deterministic). -/
def isProgressFrame (cs : List Char) : Bool :=
  let r := cs.dropWhile isSpaceRe
  let ds := r.takeWhile Char.isDigit
  !ds.isEmpty && ((r.drop ds.length).head? == some '%')

/-- Go `isAnimationFrame`: the first pattern `^[...]+$` demands a nonempty text
entirely of spinner-class characters; the second is `^\s*\d+%`. -/
def isAnimationFrame (s : String) : Bool :=
  (!s.toList.isEmpty && s.toList.all isSpinnerChar) || isProgressFrame s.toList

/-- UTF-8 encoded width of a rune, for Go's `len` on strings. -/
def charUtf8Len (c : Char) : Nat :=
  if c.toNat < 0x80 then 1
  else if c.toNat < 0x800 then 2
  else if c.toNat < 0x10000 then 3
  else 4

/-- Go `len(s)` for a string: its UTF-8 byte count. -/
def utf8Len (s : String) : Nat :=
  (s.toList.map charUtf8Len).sum

/-- Go `flush`: no-op on an empty buffer; otherwise clears the buffer and byte
counter and hands the serialized batch to the flush callback. -/
def TranscriptRecorder.flush (tr : TranscriptRecorder) :
    TranscriptRecorder × Option (List TranscriptEntry) :=
  if tr.buffer = [] then (tr, none)
  else ({ tr with buffer := [], bufferBytes := 0 }, some tr.buffer)

/-- Go `RecordOutput` at instant `now`: clean, drop if empty, count repeated
animation frames, summarize a finished run of repeats, append the entry and
flush once the byte threshold is reached. -/
def TranscriptRecorder.RecordOutput (tr : TranscriptRecorder) (now : Nat)
    (data : String) : TranscriptRecorder × Option (List TranscriptEntry) :=
  if tr.stopped then (tr, none)
  else
    let cleaned := cleanForTranscript data
    if cleaned = "" then (tr, none)
    else if isAnimationFrame cleaned && cleaned == tr.lastOutput then
      ({ tr with dupCount := tr.dupCount + 1 }, none)
    else
      let tr1 := if 0 < tr.dupCount then
          { tr with
            buffer := tr.buffer ++ [⟨now, "output",
              "[repeated " ++ String.mk (List.replicate tr.dupCount '.') ++ "]"⟩],
            dupCount := 0 }
        else tr
      let tr2 := { tr1 with
          lastOutput := cleaned,
          buffer := tr1.buffer ++ [⟨now, "output", cleaned⟩],
          bufferBytes := tr1.bufferBytes + utf8Len cleaned }
      if TranscriptFlushThreshold ≤ tr2.bufferBytes then tr2.flush else (tr2, none)

/-- The dropped-keystroke test of `RecordInput`: a single byte below 32 that
is neither newline nor carriage return.  (`len(text) == 1` in Go counts
bytes, so the payload is a single rune of code below 32.) -/
def isDroppedControl (data : String) : Bool :=
  match data.toList with
  | [c] => c.toNat < 32 && c != '\n' && c != '\r'
  | _ => false

/-- Go `RecordInput` at instant `now`: drop raw control keystrokes, otherwise
append the payload verbatim as a `kind = "input"` entry and flush once the
byte threshold is reached. -/
def TranscriptRecorder.RecordInput (tr : TranscriptRecorder) (now : Nat)
    (data : String) : TranscriptRecorder × Option (List TranscriptEntry) :=
  if tr.stopped then (tr, none)
  else if isDroppedControl data then (tr, none)
  else
    let tr2 := { tr with
        buffer := tr.buffer ++ [⟨now, "input", data⟩],
        bufferBytes := tr.bufferBytes + utf8Len data }
    if TranscriptFlushThreshold ≤ tr2.bufferBytes then tr2.flush else (tr2, none)

/-- Go `Stop`: marks stopped (cancelling the periodic timer) and performs one
final flush. -/
def TranscriptRecorder.Stop (tr : TranscriptRecorder) :
    TranscriptRecorder × Option (List TranscriptEntry) :=
  TranscriptRecorder.flush { tr with stopped := true }

/-- The body of the periodic flush timer at the instant it fires. -/
def TranscriptRecorder.flushTimerFired (tr : TranscriptRecorder) :
    TranscriptRecorder × Option (List TranscriptEntry) :=
  if tr.stopped then (tr, none) else tr.flush

/-- Feed a timestamped sequence of output chunks. -/
def recordOutputs : TranscriptRecorder → List (Nat × String) → TranscriptRecorder
  | tr, [] => tr
  | tr, (t, s) :: rest => recordOutputs (tr.RecordOutput t s).1 rest

/-! ### Shared lemmas about the status detector -/

/-- Go `setStatus` either keeps or adopts the candidate status. -/
theorem setStatus_currentStatus (sd : StatusDetector) (now : Nat)
    (cand : SessionStatus) :
    (sd.setStatus now cand).1.currentStatus = sd.currentStatus ∨
      (sd.setStatus now cand).1.currentStatus = cand := by
  unfold StatusDetector.setStatus
  split_ifs <;> simp

/-- Go `setStatus` never yields a status that is neither the old one nor the
candidate. -/
theorem setStatus_ne_idle {sd : StatusDetector} {now : Nat} {cand : SessionStatus}
    (h1 : sd.currentStatus ≠ .idle) (h2 : cand ≠ .idle) :
    (sd.setStatus now cand).1.currentStatus ≠ .idle := by
  rcases setStatus_currentStatus sd now cand with h | h <;> rw [h] <;> assumption

theorem goodAt_mono {sd : StatusDetector} {t t' : Nat} (hg : GoodAt sd t)
    (hle : t ≤ t') : GoodAt sd t' :=
  ⟨Nat.le_trans hg.1 hle, Nat.le_trans hg.2.1 hle, hg.2.2⟩

theorem setStatus_goodAt {sd : StatusDetector} {now : Nat} (cand : SessionStatus)
    (h1 : sd.lastChangeAt ≤ now) (h2 : sd.lastOutputAt ≤ now)
    (h3 : sd.currentStatus = .active → sd.lastChangeAt ≤ sd.lastOutputAt)
    (h4 : cand = .active → now ≤ sd.lastOutputAt) :
    GoodAt (sd.setStatus now cand).1 now := by
  unfold StatusDetector.setStatus
  split_ifs with hc hd
  · exact ⟨h1, h2, h3⟩
  · exact ⟨h1, h2, h3⟩
  · refine ⟨Nat.le_refl now, h2, ?_⟩
    intro hact
    simp only at hact
    exact h4 hact

theorem detectorStep_goodAt {sd : StatusDetector} {t t' : Nat} (e : DetectorEvent)
    (hg : GoodAt sd t) (hle : t ≤ t') : GoodAt (detectorStep sd t' e).1 t' := by
  have hmono : GoodAt sd t' := goodAt_mono hg hle
  cases e with
  | processOutput data =>
      show GoodAt (sd.ProcessOutput t' data).1 t'
      unfold StatusDetector.ProcessOutput
      by_cases hs : sd.stopped
      · simpa [hs] using hmono
      · simp only [hs, Bool.false_eq_true, if_false]
        set buf := (if MaxLineBufferSize < (sd.lineBuffer ++ data).length
          then (sd.lineBuffer ++ data).drop ((sd.lineBuffer ++ data).length - MaxLineBufferSize)
          else sd.lineBuffer ++ data) with hbuf
        by_cases hm : matchesPrompt (stripAnsi (getLastLines buf 3)) <;>
          simp only [hm, if_true, Bool.true_eq_false, if_false] <;>
          exact setStatus_goodAt _ (Nat.le_trans hg.1 hle) (Nat.le_refl t')
            (fun _ => Nat.le_trans hg.1 hle) (fun _ => Nat.le_refl t')
  | setExited =>
      show GoodAt (sd.SetExited t').1 t'
      unfold StatusDetector.SetExited
      exact setStatus_goodAt _ hmono.1 hmono.2.1 hmono.2.2 (by simp)
  | stop =>
      show GoodAt sd.Stop t'
      exact ⟨hmono.1, hmono.2.1, hmono.2.2⟩
  | idleFire =>
      show GoodAt (sd.idleTimerFired t').1 t'
      unfold StatusDetector.idleTimerFired
      split_ifs with hs hguard
      · exact hmono
      · exact setStatus_goodAt _ hmono.1 hmono.2.1 hmono.2.2 (by simp)
      · exact hmono

theorem runDetector_goodAt :
    ∀ (trace : List (Nat × DetectorEvent)) (sd : StatusDetector) (t : Nat),
      GoodAt sd t → Chronological t trace →
      ∃ t', GoodAt (runDetector sd trace) t' := by
  intro trace
  induction trace with
  | nil => intro sd t hg _; exact ⟨t, hg⟩
  | cons te rest ih =>
      intro sd t hg hc
      obtain ⟨t', e⟩ := te
      obtain ⟨hle, hc'⟩ := hc
      exact ih _ t' (detectorStep_goodAt e hg hle) hc'

/-! ### Claim theorems for the status detector -/

/-- C1: a candidate passed to the debounced setter commits (updating the
status and dispatching exactly one `(previous, new)` notification) if and
only if it differs from the current status and at least `DebounceInterval`
has elapsed since the last accepted change; otherwise it is silently
discarded (no state change, no notification).  Consequently, of two
differing candidates arriving within one debounce window only the first is
accepted: after a commit at `now`, any candidate offered strictly within
`DebounceInterval` of `now` is discarded, not deferred. -/
theorem setStatus_debounced_commit_iff (sd : StatusDetector) (now : Nat)
    (cand : SessionStatus) :
    (sd.setStatus now cand =
      if cand ≠ sd.currentStatus ∧ DebounceInterval ≤ now - sd.lastChangeAt
      then ({ sd with currentStatus := cand, lastChangeAt := now },
            some (sd.currentStatus, cand))
      else (sd, none)) ∧
    (∀ (cand₂ : SessionStatus) (t₂ : Nat), t₂ - now < DebounceInterval →
      StatusDetector.setStatus
          { sd with currentStatus := cand, lastChangeAt := now } t₂ cand₂ =
        ({ sd with currentStatus := cand, lastChangeAt := now }, none)) := by
  constructor
  · unfold StatusDetector.setStatus
    by_cases hc : cand = sd.currentStatus
    · simp [hc]
    · by_cases hd : now - sd.lastChangeAt < DebounceInterval
      · rw [if_neg hc, if_pos hd, if_neg (by simp [hc, hd, Nat.not_le.mpr hd])]
      · rw [if_neg hc, if_neg hd, if_pos ⟨hc, Nat.not_lt.mp hd⟩]
  · intro cand₂ t₂ ht
    unfold StatusDetector.setStatus
    by_cases hc : cand₂ = cand
    · simp [hc]
    · simp only [hc]
      rw [if_neg (by simpa using hc), if_pos (by simpa using ht)]

/-- Witness for C1: from a fresh detector, a `needsInput` candidate at
1000ms commits with its notification, and an `active` candidate 200ms later
(inside the debounce window) is discarded. -/
theorem setStatus_debounced_commit_iff_witness :
    StatusDetector.setStatus (NewStatusDetector 0) 1000 .needsInput =
      ({ NewStatusDetector 0 with currentStatus := .needsInput, lastChangeAt := 1000 },
       some (.active, .needsInput)) ∧
    StatusDetector.setStatus
        { NewStatusDetector 0 with currentStatus := .needsInput, lastChangeAt := 1000 }
        1200 .active =
      ({ NewStatusDetector 0 with currentStatus := .needsInput, lastChangeAt := 1000 },
       none) := by
  constructor
  · exact ((setStatus_debounced_commit_iff (NewStatusDetector 0) 1000 .needsInput).1).trans
      (by decide)
  · exact (setStatus_debounced_commit_iff (NewStatusDetector 0) 1000 .needsInput).2
      .active 1200 (by decide)

/-- C9: a fresh detector has its last-accepted-change timestamp at the zero
value of `time.Time`, so the debounce test compares against instant `0` and
can never suppress the first differing candidate: any real wall-clock
instant `now` is at least `DebounceInterval` past the zero time, and under
that sole assumption the first candidate differing from the initial
`active` status is always committed, with its notification. -/
theorem firstTransitionAlwaysCommits (t0 now : Nat) (cand : SessionStatus)
    (hc : cand ≠ .active) (hnow : DebounceInterval ≤ now) :
    (NewStatusDetector t0).lastChangeAt = 0 ∧
    (NewStatusDetector t0).setStatus now cand =
      ({ NewStatusDetector t0 with currentStatus := cand, lastChangeAt := now },
       some (.active, cand)) := by
  refine ⟨rfl, ?_⟩
  unfold StatusDetector.setStatus
  rw [if_neg (by simpa [NewStatusDetector] using hc),
      if_neg (by simp only [NewStatusDetector]; omega)]
  rfl

/-- Witness for C9 at `t0 = 0`, `now = 500`, candidate `exited`. -/
theorem firstTransitionAlwaysCommits_witness :
    (NewStatusDetector 0).setStatus 500 .exited =
      ({ NewStatusDetector 0 with currentStatus := .exited, lastChangeAt := 500 },
       some (.active, .exited)) :=
  (firstTransitionAlwaysCommits 0 500 .exited (by decide) (by decide)).2

/-- C3 counterexample: `SetExited`, unlike `ProcessOutput` and the timer
callback, performs no `stopped` check, so after `Stop()` it still commits
`exited` and dispatches a notification — it is not a no-op. -/
theorem stop_then_setExited_not_noop :
    ((NewStatusDetector 0).Stop.SetExited 1000).1.currentStatus = .exited ∧
    ((NewStatusDetector 0).Stop.SetExited 1000).2 = some (.active, .exited) ∧
    (NewStatusDetector 0).Stop.stopped = true := by
  decide

/-- C3 amended: after `Stop()` has been called, `ProcessOutput`, the idle
timer callback and further `Stop` calls are safe no-ops (no status change,
no notification); `SetExited`, however, is not guarded by the stopped flag
and can still commit `exited` and fire a notification. -/
theorem stopped_detector_noop (sd : StatusDetector) (h : sd.stopped = true)
    (now : Nat) (data : List Nat) :
    sd.ProcessOutput now data = (sd, none) ∧
    sd.idleTimerFired now = (sd, none) ∧
    sd.Stop = sd := by
  refine ⟨?_, ?_, ?_⟩
  · unfold StatusDetector.ProcessOutput
    rw [if_pos h]
  · unfold StatusDetector.idleTimerFired
    rw [if_pos h]
  · unfold StatusDetector.Stop
    cases sd
    simp_all

/-- Witness for the amended C3 on a concrete stopped detector. -/
theorem stopped_detector_noop_witness :
    (NewStatusDetector 0).Stop.ProcessOutput 1 [65] = ((NewStatusDetector 0).Stop, none) ∧
    (NewStatusDetector 0).Stop.idleTimerFired 1 = ((NewStatusDetector 0).Stop, none) ∧
    (NewStatusDetector 0).Stop.Stop = (NewStatusDetector 0).Stop :=
  stopped_detector_noop (NewStatusDetector 0).Stop (by decide) 1 [65]

/-- C4 counterexample: `SetExited` goes through the debounced setter, so a
state whose last accepted change is more recent than `DebounceInterval`
discards the `exited` candidate.  Concretely: a fresh detector fed the
chevron prompt `"❯ "` (UTF-8 bytes 226 157 175 32) at 1000ms commits
`needsInput`; `SetExited` at 1200ms — 200ms later — is silently discarded
and the status stays `needsInput`, not `exited`. -/
theorem setExited_suppressed_by_debounce :
    (((NewStatusDetector 0).ProcessOutput 1000 [226, 157, 175, 32]).1.currentStatus
      = .needsInput) ∧
    (((NewStatusDetector 0).ProcessOutput 1000 [226, 157, 175, 32]).1.SetExited 1200 =
      (((NewStatusDetector 0).ProcessOutput 1000 [226, 157, 175, 32]).1, none)) := by
  decide

/-- C4 amended: from every classifier state that is not already `exited`,
`SetExited()` commits the status `exited` (with its notification) provided
the debounce interval has elapsed since the last accepted change; and once
the status is `exited`, the timer-driven idle transition never changes it
(the timer body requires the status to be `active`). -/
theorem setExited_commits_and_exited_terminal (sd : StatusDetector) (now : Nat)
    (hne : sd.currentStatus ≠ .exited)
    (hd : DebounceInterval ≤ now - sd.lastChangeAt) :
    sd.SetExited now =
      ({ sd with currentStatus := .exited, lastChangeAt := now },
       some (sd.currentStatus, .exited)) ∧
    (∀ (sd' : StatusDetector) (t : Nat), sd'.currentStatus = .exited →
      (sd'.idleTimerFired t).1.currentStatus = .exited) := by
  constructor
  · unfold StatusDetector.SetExited StatusDetector.setStatus
    rw [if_neg (fun he => hne he.symm), if_neg (by omega)]
  · intro sd' t h
    unfold StatusDetector.idleTimerFired
    split_ifs with hs hguard
    · exact h
    · exact absurd (hguard.1.symm.trans h) (by decide)
    · exact h

/-- Witness for the amended C4: from a fresh detector (status `active`,
outside any debounce window) `SetExited` at 600ms commits `exited`, and the
idle timer firing on the resulting state leaves it `exited`. -/
theorem setExited_commits_and_exited_terminal_witness :
    (NewStatusDetector 0).SetExited 600 =
      ({ NewStatusDetector 0 with currentStatus := .exited, lastChangeAt := 600 },
       some (.active, .exited)) ∧
    (((NewStatusDetector 0).SetExited 600).1.idleTimerFired 20000).1.currentStatus
      = .exited := by
  have h := setExited_commits_and_exited_terminal (NewStatusDetector 0) 600
    (by decide) (by decide)
  exact ⟨h.1, h.2 ((NewStatusDetector 0).SetExited 600).1 20000 (by decide)⟩

set_option maxRecDepth 20000 in
/-- C2: the classifier transitions to `idle` exactly via the idle-timer
callback, and the callback drives the status to `idle` (with its
notification) precisely when, at the instant it fires, the detector is not
stopped, the status is still `active`, and at least `IdleTimeout` has
passed since the last output.  No other event ever produces `idle`, so
`idle` is never entered from `needsInput` or `exited`.  The two clock-side
hypotheses hold in every reachable state: the final conjunct shows that
along any chronological event trace from a fresh detector, an `active`
status implies the last accepted change is not more recent than the last
output (which is what makes the debounce test inside `setStatus` always
pass when the idle conditions hold). -/
theorem idleTransitionIff (sd : StatusDetector) (now : Nat)
    (hinv : sd.currentStatus = .active → sd.lastChangeAt ≤ sd.lastOutputAt)
    (hout : sd.lastOutputAt ≤ now) :
    ((sd.idleTimerFired now =
        ({ sd with currentStatus := .idle, lastChangeAt := now },
         some (.active, .idle))) ↔
      (sd.stopped = false ∧ sd.currentStatus = .active ∧
        IdleTimeout ≤ now - sd.lastOutputAt)) ∧
    (∀ (t : Nat) (e : DetectorEvent), e ≠ .idleFire →
      sd.currentStatus ≠ .idle → (detectorStep sd t e).1.currentStatus ≠ .idle) ∧
    (∀ (t0 : Nat) (trace : List (Nat × DetectorEvent)),
      Chronological t0 trace →
      ((runDetector (NewStatusDetector t0) trace).currentStatus = .active →
        (runDetector (NewStatusDetector t0) trace).lastChangeAt ≤
          (runDetector (NewStatusDetector t0) trace).lastOutputAt)) := by
  refine ⟨⟨?_, ?_⟩, ?_, ?_⟩
  · intro heq
    unfold StatusDetector.idleTimerFired at heq
    by_cases hs : sd.stopped
    · rw [if_pos hs] at heq
      exact absurd (congrArg Prod.snd heq) (by simp)
    · rw [if_neg hs] at heq
      by_cases hg : sd.currentStatus = .active ∧ IdleTimeout ≤ now - sd.lastOutputAt
      · exact ⟨Bool.of_not_eq_true hs, hg⟩
      · rw [if_neg hg] at heq
        exact absurd (congrArg Prod.snd heq) (by simp)
  · rintro ⟨hs, hact, hto⟩
    unfold StatusDetector.idleTimerFired
    rw [if_neg (by simp [hs]), if_pos ⟨hact, hto⟩]
    unfold StatusDetector.setStatus
    rw [if_neg (by rw [hact]; decide),
        if_neg (by have := hinv hact; unfold IdleTimeout at hto;
                   unfold DebounceInterval; omega),
        hact]
  · intro t e he hni
    cases e with
    | processOutput data =>
        show (sd.ProcessOutput t data).1.currentStatus ≠ .idle
        unfold StatusDetector.ProcessOutput
        by_cases hs : sd.stopped
        · simpa [hs] using hni
        · simp only [hs, Bool.false_eq_true, if_false]
          split <;> split
          all_goals apply setStatus_ne_idle _ (by decide)
          all_goals simpa using hni
    | setExited =>
        show (sd.SetExited t).1.currentStatus ≠ .idle
        unfold StatusDetector.SetExited
        exact setStatus_ne_idle hni (by decide)
    | stop => exact hni
    | idleFire => exact absurd rfl he
  · intro t0 trace hc hact
    obtain ⟨t', hg⟩ := runDetector_goodAt trace (NewStatusDetector t0) t0
      ⟨Nat.zero_le t0, Nat.le_refl t0, fun _ => Nat.zero_le t0⟩ hc
    exact hg.2.2 hact

/-- Witness for C2: on a fresh detector created at instant 0, the idle
timer firing at 10000ms commits `idle` with its `(active, idle)`
notification. -/
theorem idleTransitionIff_witness :
    (NewStatusDetector 0).idleTimerFired 10000 =
      ({ NewStatusDetector 0 with currentStatus := .idle, lastChangeAt := 10000 },
       some (.active, .idle)) :=
  ((idleTransitionIff (NewStatusDetector 0) 10000 (fun _ => Nat.le_refl 0)
      (Nat.zero_le 10000)).1).mpr (by decide)

/-! ### Claim theorems for the transcript recorder -/

/-- C6: `flush` on an empty buffer is a no-op that invokes no callback;
otherwise it clears the buffer and the byte counter before handing the batch
(exactly the buffered entries, in order) to the callback.  `Stop` therefore
flushes the remaining entries exactly once, and a repeated `Stop` finds an
empty buffer, changes nothing and emits nothing — no duplicate emission. -/
theorem flushOnceAndStopIdempotent (tr : TranscriptRecorder) :
    (tr.flush =
      if tr.buffer = [] then (tr, none)
      else ({ tr with buffer := [], bufferBytes := 0 }, some tr.buffer)) ∧
    (tr.Stop.2 = if tr.buffer = [] then none else some tr.buffer) ∧
    tr.Stop.1.Stop = (tr.Stop.1, none) := by
  refine ⟨?_, ?_, ?_⟩
  · rfl
  · unfold TranscriptRecorder.Stop TranscriptRecorder.flush
    by_cases hb : tr.buffer = [] <;> simp [hb]
  · unfold TranscriptRecorder.Stop TranscriptRecorder.flush
    by_cases hb : tr.buffer = [] <;> simp [hb]

/-- C10: `flush` — and hence the final flush performed by `Stop` —
serializes exactly the already-buffered entries and leaves the pending
repeat counter (`dupCount`) and comparison text untouched: it never turns a
nonzero pending repeat count into a summary entry.  Concretely, a fresh
recorder fed three identical spinner frames `"/"` and then stopped has
`dupCount = 2`, yet the only batch ever emitted is the single entry for the
first frame — the two repeats appear in no batch. -/
theorem pendingRepeatsNeverFlushed (tr : TranscriptRecorder) :
    (tr.flush.2 = if tr.buffer = [] then none else some tr.buffer) ∧
    tr.flush.1.dupCount = tr.dupCount ∧
    tr.flush.1.lastOutput = tr.lastOutput ∧
    (tr.Stop.2 = if tr.buffer = [] then none else some tr.buffer) ∧
    tr.Stop.1.dupCount = tr.dupCount ∧
    (recordOutputs NewTranscriptRecorder [(0, "/"), (1, "/"), (2, "/")]).dupCount = 2 ∧
    (recordOutputs NewTranscriptRecorder [(0, "/"), (1, "/"), (2, "/")]).Stop.2 =
      some [⟨0, "output", "/"⟩] := by
  refine ⟨?_, ?_, ?_, ?_, ?_, ?_, ?_⟩
  · unfold TranscriptRecorder.flush
    by_cases hb : tr.buffer = [] <;> simp [hb]
  · unfold TranscriptRecorder.flush
    by_cases hb : tr.buffer = [] <;> simp [hb]
  · unfold TranscriptRecorder.flush
    by_cases hb : tr.buffer = [] <;> simp [hb]
  · unfold TranscriptRecorder.Stop TranscriptRecorder.flush
    by_cases hb : tr.buffer = [] <;> simp [hb]
  · unfold TranscriptRecorder.Stop TranscriptRecorder.flush
    by_cases hb : tr.buffer = [] <;> simp [hb]
  · decide
  · decide

/-- C8: `RecordInput` drops exactly the single-rune payloads of code below
32 that are neither newline nor carriage return (state unchanged, no flush);
every other payload is appended verbatim as a `kind = "input"` entry — it
ends up either in the buffer or, if the byte threshold was just reached, in
the flushed batch — and its UTF-8 length is added to the byte counter
(which the threshold flush then resets).  A lone escape byte 27 is dropped;
`"ls -la\n"` is not. -/
theorem recordInputDropsOnlyControl (tr : TranscriptRecorder) (now : Nat)
    (data : String) :
    (isDroppedControl data = true → tr.RecordInput now data = (tr, none)) ∧
    (isDroppedControl data = false → tr.stopped = false →
      ((tr.RecordInput now data).2.getD [] ++ (tr.RecordInput now data).1.buffer =
        tr.buffer ++ [⟨now, "input", data⟩] ∧
       (tr.RecordInput now data).1.bufferBytes =
        if TranscriptFlushThreshold ≤ tr.bufferBytes + utf8Len data then 0
        else tr.bufferBytes + utf8Len data)) ∧
    isDroppedControl "\x1b" = true ∧
    isDroppedControl "ls -la\n" = false := by
  refine ⟨?_, ?_, by decide, by decide⟩
  · intro h
    unfold TranscriptRecorder.RecordInput
    by_cases hs : tr.stopped <;> simp [hs, h]
  · intro h hs
    unfold TranscriptRecorder.RecordInput
    simp only [hs, Bool.false_eq_true, if_false, h]
    by_cases hth : TranscriptFlushThreshold ≤ tr.bufferBytes + utf8Len data
    · rw [if_pos hth, if_pos hth]
      unfold TranscriptRecorder.flush
      rw [if_neg (by simp)]
      simp
    · rw [if_neg hth, if_neg hth]
      simp

/-- Witness for C8: on a fresh recorder, a lone escape byte buffers nothing
and `"ls -la\n"` is stored verbatim with its 7 bytes counted. -/
theorem recordInputDropsOnlyControl_witness :
    NewTranscriptRecorder.RecordInput 5 "\x1b" = (NewTranscriptRecorder, none) ∧
    ((NewTranscriptRecorder.RecordInput 5 "ls -la\n").2.getD [] ++
        (NewTranscriptRecorder.RecordInput 5 "ls -la\n").1.buffer =
      NewTranscriptRecorder.buffer ++ [⟨5, "input", "ls -la\n"⟩] ∧
     (NewTranscriptRecorder.RecordInput 5 "ls -la\n").1.bufferBytes =
      if TranscriptFlushThreshold ≤ NewTranscriptRecorder.bufferBytes + utf8Len "ls -la\n"
      then 0 else NewTranscriptRecorder.bufferBytes + utf8Len "ls -la\n") :=
  ⟨(recordInputDropsOnlyControl NewTranscriptRecorder 5 "\x1b").1 (by decide),
   (recordInputDropsOnlyControl NewTranscriptRecorder 5 "ls -la\n").2.1
     (by decide) (by decide)⟩

/-! ### Lemmas for the cleaning pipeline (C7) -/

theorem hasTriple_iff : ∀ {l : List Char},
    hasTriple l = true ↔ ∃ a b, l = a ++ '\n' :: '\n' :: '\n' :: b := by
  intro l
  induction l using hasTriple.induct with
  | case1 =>
      simp only [hasTriple, Bool.false_eq_true, false_iff]
      rintro ⟨a, b, h⟩
      cases a <;> simp at h
  | case2 x =>
      simp only [hasTriple, Bool.false_eq_true, false_iff]
      rintro ⟨a, b, h⟩
      cases a with
      | nil => simp at h
      | cons y a2 => cases a2 <;> simp at h
  | case3 x y =>
      simp only [hasTriple, Bool.false_eq_true, false_iff]
      rintro ⟨a, b, h⟩
      cases a with
      | nil => simp at h
      | cons z a2 =>
          cases a2 with
          | nil => simp at h
          | cons w a3 => cases a3 <;> simp at h
  | case4 c d e rest ih =>
      constructor
      · intro h
        rw [hasTriple] at h
        simp only [Bool.or_eq_true, Bool.and_eq_true, beq_iff_eq] at h
        rcases h with ⟨⟨hc, hd⟩, he⟩ | h
        · exact ⟨[], rest, by simp [hc, hd, he]⟩
        · obtain ⟨a, b, hab⟩ := ih.mp h
          exact ⟨c :: a, b, by simp [hab]⟩
      · rintro ⟨a, b, hab⟩
        rw [hasTriple]
        simp only [Bool.or_eq_true, Bool.and_eq_true, beq_iff_eq]
        cases a with
        | nil =>
            simp only [List.nil_append, List.cons.injEq] at hab
            exact Or.inl ⟨⟨hab.1, hab.2.1⟩, hab.2.2.1⟩
        | cons a1 a2 =>
            simp only [List.cons_append, List.cons.injEq] at hab
            exact Or.inr (ih.mpr ⟨a2, b, hab.2⟩)

theorem hasTriple_append_left {x r : List Char} (h : hasTriple x = true) :
    hasTriple (x ++ r) = true := by
  obtain ⟨a, b, hab⟩ := hasTriple_iff.mp h
  exact hasTriple_iff.mpr ⟨a, b ++ r, by simp [hab]⟩

theorem hasTriple_append_right {x r : List Char} (h : hasTriple r = true) :
    hasTriple (x ++ r) = true := by
  obtain ⟨a, b, hab⟩ := hasTriple_iff.mp h
  exact hasTriple_iff.mpr ⟨x ++ a, b, by simp [hab]⟩

theorem hasTriple_dropWhile {p : Char → Bool} {l : List Char}
    (h : hasTriple (l.dropWhile p) = true) : hasTriple l = true := by
  have hd := List.takeWhile_append_dropWhile (p := p) (l := l)
  rw [← hd]
  exact hasTriple_append_right h

theorem mem_of_mem_dropWhile {p : Char → Bool} {a : Char} {l : List Char}
    (h : a ∈ l.dropWhile p) : a ∈ l := by
  have hd := List.takeWhile_append_dropWhile (p := p) (l := l)
  rw [← hd]
  exact List.mem_append_right _ h

theorem head?_dropWhile_not {p : Char → Bool} {c : Char} : ∀ {l : List Char},
    (l.dropWhile p).head? = some c → p c = false := by
  intro l
  induction l with
  | nil => intro h; simp at h
  | cons b rest ih =>
      intro h
      by_cases hb : p b
      · rw [List.dropWhile_cons, if_pos hb] at h
        exact ih h
      · rw [List.dropWhile_cons, if_neg hb] at h
        simp only [List.head?_cons, Option.some.injEq] at h
        rw [← h]
        exact Bool.of_not_eq_true hb

/-- Go `trimSpaceChars l` is a prefix of `l.dropWhile isSpaceGo`. -/
theorem trimSpaceChars_decomp (l : List Char) :
    ∃ t, l.dropWhile isSpaceGo = trimSpaceChars l ++ t := by
  unfold trimSpaceChars
  set A := l.dropWhile isSpaceGo with hA
  have hd := List.takeWhile_append_dropWhile (p := isSpaceGo) (l := A.reverse)
  refine ⟨(A.reverse.takeWhile isSpaceGo).reverse, ?_⟩
  calc A = A.reverse.reverse := by rw [List.reverse_reverse]
    _ = (A.reverse.takeWhile isSpaceGo ++ A.reverse.dropWhile isSpaceGo).reverse := by
        rw [hd]
    _ = (A.reverse.dropWhile isSpaceGo).reverse ++ (A.reverse.takeWhile isSpaceGo).reverse := by
        rw [List.reverse_append]

/-- C7: `RecordOutput` cleans its input through `cleanForTranscript`, whose
output never contains a carriage return, never contains three consecutive
newlines (runs of 3+ newlines are collapsed to 2), and is trimmed: neither
its first nor its last character is whitespace.  Escape sequences are
stripped (`"\x1b[32mgreen\x1b[0m"` cleans to `"green"`).  If the cleaned
text is empty, `RecordOutput` buffers nothing and leaves the recorder
unchanged, invoking no callback. -/
theorem cleanForTranscriptSpec (s : String) (tr : TranscriptRecorder) (now : Nat) :
    '\r' ∉ (cleanForTranscript s).toList ∧
    hasTriple (cleanForTranscript s).toList = false ∧
    (∀ c, (cleanForTranscript s).toList.head? = some c → isSpaceGo c = false) ∧
    (∀ c, (cleanForTranscript s).toList.getLast? = some c → isSpaceGo c = false) ∧
    (cleanForTranscript s = "" → tr.RecordOutput now s = (tr, none)) ∧
    cleanForTranscript "\x1b[32mgreen\x1b[0m" = "green" := by
  have htolist : (cleanForTranscript s).toList =
      trimSpaceChars (collapseNewlines (removeCR (stripEscapes s.toList))) := rfl
  set M := removeCR (stripEscapes s.toList) with hM
  set C := collapseNewlines M with hC
  refine ⟨?_, ?_, ?_, ?_, ?_, by decide⟩
  · rw [htolist]
    intro hmem
    unfold trimSpaceChars at hmem
    have h1 : '\r' ∈ (C.dropWhile isSpaceGo).reverse.dropWhile isSpaceGo := by
      simpa using hmem
    have h2 : '\r' ∈ C := by
      have := mem_of_mem_dropWhile h1
      exact mem_of_mem_dropWhile (by simpa using this)
    rcases collapseFuel_mem M.length M h2 with hm | hn
    · have := List.of_mem_filter hm
      simp at this
    · exact absurd hn (by decide)
  · rw [htolist]
    have hfx : hasTriple C = false :=
      collapseFuel_hasTriple M.length M (Nat.le_refl _)
    by_cases h : hasTriple (trimSpaceChars C) = true
    · exfalso
      obtain ⟨t, ht⟩ := trimSpaceChars_decomp C
      have : hasTriple (C.dropWhile isSpaceGo) = true := by
        rw [ht]
        exact hasTriple_append_left h
      rw [hasTriple_dropWhile this] at hfx
      exact absurd hfx (by simp)
    · exact Bool.of_not_eq_true h
  · rw [htolist]
    intro c hc
    obtain ⟨t, ht⟩ := trimSpaceChars_decomp C
    have hne : trimSpaceChars C ≠ [] := by
      intro he
      rw [he] at hc
      simp at hc
    have : (C.dropWhile isSpaceGo).head? = some c := by
      rw [ht]
      cases hcc : trimSpaceChars C with
      | nil => exact absurd hcc hne
      | cons x xs =>
          rw [hcc] at hc
          simp only [List.head?_cons, Option.some.injEq] at hc
          simp [hcc, hc]
    exact head?_dropWhile_not this
  · rw [htolist]
    intro c hc
    unfold trimSpaceChars at hc
    rw [List.getLast?_reverse] at hc
    exact head?_dropWhile_not hc
  · intro hempty
    unfold TranscriptRecorder.RecordOutput
    by_cases hs : tr.stopped
    · simp [hs]
    · simp [hs, hempty]

/-- Witness for C7: the cleaned `"\x1b[32mgreen\x1b[0m"` starts with the
non-whitespace `'g'`, and an escape-only chunk cleans to empty and is
dropped by `RecordOutput` without touching the recorder. -/
theorem cleanForTranscriptSpec_witness :
    isSpaceGo 'g' = false ∧
    NewTranscriptRecorder.RecordOutput 7 "\x1b[2J" = (NewTranscriptRecorder, none) := by
  constructor
  · exact (cleanForTranscriptSpec "\x1b[32mgreen\x1b[0m" NewTranscriptRecorder 7).2.2.1
      'g' (by decide)
  · exact (cleanForTranscriptSpec "\x1b[2J" NewTranscriptRecorder 7).2.2.2.2.1 (by decide)

/-! ### Lemmas for animation-frame deduplication (C5) -/

theorem recordOutputs_append (l1 l2 : List (Nat × String)) :
    ∀ (tr : TranscriptRecorder),
      recordOutputs tr (l1 ++ l2) = recordOutputs (recordOutputs tr l1) l2 := by
  induction l1 with
  | nil => intro tr; rfl
  | cons ts rest ih =>
      intro tr
      obtain ⟨t, s⟩ := ts
      simp only [List.cons_append, recordOutputs]
      exact ih _

/-- A repeated recognized animation frame only bumps the repeat counter. -/
theorem recordOutput_dup (tr : TranscriptRecorder) (t : Nat) (c : String)
    (hs : tr.stopped = false) (hl : tr.lastOutput = c)
    (hc : cleanForTranscript c = c) (hanim : isAnimationFrame c = true)
    (hc0 : c ≠ "") :
    tr.RecordOutput t c = ({ tr with dupCount := tr.dupCount + 1 }, none) := by
  unfold TranscriptRecorder.RecordOutput
  simp only [hs, Bool.false_eq_true, if_false, hc]
  rw [if_neg hc0, if_pos (by simp [hanim, hl])]

/-- Feeding the same frame repeatedly accumulates only the repeat counter. -/
theorem recordOutputs_dups (c : String) (hc : cleanForTranscript c = c)
    (hanim : isAnimationFrame c = true) (hc0 : c ≠ "") :
    ∀ (mid : List Nat) (tr : TranscriptRecorder),
      tr.stopped = false → tr.lastOutput = c →
      recordOutputs tr (mid.map (fun t => (t, c))) =
        { tr with dupCount := tr.dupCount + mid.length } := by
  intro mid
  induction mid with
  | nil => intro tr h1 h2; simp [recordOutputs]
  | cons t rest ih =>
      intro tr h1 h2
      simp only [List.map_cons, recordOutputs]
      rw [recordOutput_dup tr t c h1 h2 hc hanim hc0]
      have hrec := ih { tr with dupCount := tr.dupCount + 1 } (by simp [h1]) (by simp [h2])
      rw [hrec]
      simp only [List.length_cons]
      congr 1
      omega

/-- The first occurrence of a nonempty clean frame on a fresh recorder is
stored as a regular entry. -/
theorem recordOutput_fresh (t : Nat) (c : String) (hc : cleanForTranscript c = c)
    (hc0 : c ≠ "") (hlen : utf8Len c < TranscriptFlushThreshold) :
    NewTranscriptRecorder.RecordOutput t c =
      ({ buffer := [⟨t, "output", c⟩], bufferBytes := utf8Len c,
         stopped := false, lastOutput := c, dupCount := 0 }, none) := by
  have hbe : (c == "") = false := beq_eq_false_iff_ne.mpr hc0
  unfold TranscriptRecorder.RecordOutput
  simp only [NewTranscriptRecorder, hc, hbe, Bool.and_false, Bool.false_eq_true,
    if_false, Nat.lt_irrefl, List.nil_append, Nat.zero_add]
  rw [if_neg hc0, if_neg (by omega)]

/-- A distinct nonempty output arriving after a run of repeats appends the
single repeat-summary entry immediately followed by the new entry. -/
theorem recordOutput_distinct (tr : TranscriptRecorder) (t : Nat) (d : String)
    (hs : tr.stopped = false) (hd : cleanForTranscript d = d) (hd0 : d ≠ "")
    (hne : d ≠ tr.lastOutput) (hdup : 0 < tr.dupCount)
    (hth : tr.bufferBytes + utf8Len d < TranscriptFlushThreshold) :
    tr.RecordOutput t d =
      ({ tr with
          buffer := tr.buffer ++
            [⟨t, "output",
               "[repeated " ++ String.mk (List.replicate tr.dupCount '.') ++ "]"⟩,
             ⟨t, "output", d⟩],
          bufferBytes := tr.bufferBytes + utf8Len d,
          lastOutput := d, dupCount := 0 }, none) := by
  have hbe : (d == tr.lastOutput) = false := beq_eq_false_iff_ne.mpr hne
  unfold TranscriptRecorder.RecordOutput
  simp only [hs, Bool.false_eq_true, if_false, hd, hbe, Bool.and_false]
  rw [if_neg hd0, if_pos hdup, if_neg (by simp only []; omega)]
  simp [List.append_assoc]

/-- C5: feeding `N ≥ 2` consecutive identical cleaned animation frames `c`
(the first at `t0`, the remaining `N − 1` at the instants in `mid`) and then
one distinct nonempty output `d` at `tN` leaves exactly three buffered
entries: the first frame, one repeat-summary entry recording the repeat
count `N − 1` (as `N − 1` dots), inserted immediately before the entry for
`d` — never `N` separate entries for the repeated frames.  (The size bound
keeps the run below the flush threshold so the entries are still buffered.) -/
theorem animationRepeatsCollapsed (N : Nat) (hN : 2 ≤ N) (c d : String)
    (t0 tN : Nat) (mid : List Nat) (hmid : mid.length = N - 1)
    (hc : cleanForTranscript c = c) (hanim : isAnimationFrame c = true) (hc0 : c ≠ "")
    (hd : cleanForTranscript d = d) (hd0 : d ≠ "") (hdc : d ≠ c)
    (hsz : utf8Len c + utf8Len d < TranscriptFlushThreshold) :
    recordOutputs NewTranscriptRecorder
        (((t0, c) :: mid.map (fun t => (t, c))) ++ [(tN, d)]) =
      { buffer := [⟨t0, "output", c⟩,
          ⟨tN, "output",
            "[repeated " ++ String.mk (List.replicate (N - 1) '.') ++ "]"⟩,
          ⟨tN, "output", d⟩],
        bufferBytes := utf8Len c + utf8Len d,
        stopped := false, lastOutput := d, dupCount := 0 } := by
  rw [← hmid, recordOutputs_append]
  have h1 : recordOutputs NewTranscriptRecorder ((t0, c) :: mid.map (fun t => (t, c))) =
      { buffer := [⟨t0, "output", c⟩], bufferBytes := utf8Len c,
        stopped := false, lastOutput := c, dupCount := mid.length } := by
    simp only [recordOutputs]
    rw [recordOutput_fresh t0 c hc hc0 (by omega)]
    rw [recordOutputs_dups c hc hanim hc0 mid _ (by simp) (by simp)]
    simp
  rw [h1]
  simp only [recordOutputs]
  rw [recordOutput_distinct _ tN d rfl hd hd0 hdc (by simp only []; omega)
      (by simp only []; omega)]
  simp

/-- Witness for C5 with `N = 3`: three spinner frames `"/"` then `"done"`
yield the first frame, one two-dot repeat summary, and the distinct entry. -/
theorem animationRepeatsCollapsed_witness :
    recordOutputs NewTranscriptRecorder [(0, "/"), (1, "/"), (2, "/"), (3, "done")] =
      { buffer := [⟨0, "output", "/"⟩,
          ⟨3, "output", "[repeated " ++ String.mk (List.replicate 2 '.') ++ "]"⟩,
          ⟨3, "output", "done"⟩],
        bufferBytes := utf8Len "/" + utf8Len "done",
        stopped := false, lastOutput := "done", dupCount := 0 } := by
  have h := animationRepeatsCollapsed 3 (by omega) "/" "done" 0 3 [1, 2] (by decide)
    (by decide) (by decide) (by decide) (by decide) (by decide) (by decide) (by decide)
  exact h
